import Mathlib

/-!
Verification development for the real-time dual-language subtitle pipeline
(`translation.py`): the utterance segmenter of `WhisperSpeechRecognizer`,
the translation cleaning of `TranslationWorker`, and the subtitle state
tracking of `DraggableSubtitleWindow`.

Python strings are modelled as `List Char`; `str.strip()` is modelled as
trimming `Char.isWhitespace` characters from both ends (the inputs of
interest contain only ASCII whitespace).  Python float arithmetic on the
audio constants is modelled with exact rationals: at the constants in the
source (chunk 1024, rate 16000, thresholds 1.2/0.5/8.0/0.8/1.0, volume
bounds 100 and 70.0) every comparison made by the code is exact in IEEE
double precision, so the rational model agrees with the float code.
-/

set_option maxRecDepth 200000

namespace SubtitleCore

/-- Whitespace test used by the model of Python `str.strip()`. -/
def wsp (c : Char) : Bool := c.isWhitespace

/-- Left trim: drop leading whitespace (model of `str.lstrip()`). -/
def trimL (l : List Char) : List Char := l.dropWhile wsp

/-- Right trim: drop trailing whitespace (model of `str.rstrip()`). -/
def trimR (l : List Char) : List Char := (l.reverse.dropWhile wsp).reverse

/-- Model of Python `str.strip()`: trim whitespace from both ends. -/
def trim (l : List Char) : List Char := trimR (trimL l)

/-- The fixed ordered list of boilerplate prefixes removed by
`TranslationWorker._clean_translation` (`remove_prefixes` in the source). -/
def remove_prefixes : List (List Char) :=
  [ ("以下英文翻译成中文：".data), ("以下中文翻译成英文：".data),
    ("翻译：".data), ("Translation:".data), (":".data), ("：".data),
    ("Translate this English to Chinese:".data), ("Translate this Chinese to English:".data),
    ("Translate to Chinese:".data), ("Translate to English:".data),
    ("中文翻译：".data), ("英文翻译：".data),
    ("Here is the translation:".data), ("The translation is:".data),
    ("好的，".data), ("Okay,".data), ("嗯，".data), ("Certainly,".data) ]

/-- Model of `TranslationWorker._clean_translation`: the Python `for` loop
walks the full list once; each listed entry that is a prefix of the current
string at its turn is removed, followed by a `strip()`; the final result is
stripped again. -/
def _clean_translation (translation : List Char) : List Char :=
  trim (remove_prefixes.foldl
    (fun t p => if p.isPrefixOf t then trim (t.drop p.length) else t)
    translation)

/-- The reading the spec gives of the cleaning step, stated for comparison with the
source: check the ordered list at the start of the string, remove only the
first matching entry, then trim whitespace.  Modelled from the spec words
"first match wins, only one prefix stripped". -/
def clean_first_match_only (translation : List Char) : List Char :=
  match remove_prefixes.find? (fun p => p.isPrefixOf translation) with
  | some p => trim (translation.drop p.length)
  | none => trim translation

/-- Recursive form of the cleaning loop of the source: walk the list in order,
stripping (and trimming after) every entry that matches when its turn
comes; used to state what `_clean_translation` actually does. -/
def strip_listed_in_order (ps : List (List Char)) (t : List Char) : List Char :=
  match ps with
  | [] => t
  | p :: rest =>
      if p.isPrefixOf t then strip_listed_in_order rest (trim (t.drop p.length))
      else strip_listed_in_order rest t

/-! Part: Utterance segmenter (`WhisperSpeechRecognizer._process_audio_stream`)

An audio frame is its list of signed 16-bit samples.  The loop body of
`_process_audio_stream` is modelled as a step function on the mutable state
`(audio_buffer, silence_frames, is_speaking)`, extended with the log
`emitted` of buffers handed to `_process_speech` (one entry per utterance
closure).  A step consumes either `some data` (a frame pulled from the
queue) or `none` (a `queue.Empty` timeout).  Rational values are built with
`mkRat`; at the constants of the source every float comparison in the loop is
exact, so the rational model coincides with the float code. -/

/-- One PCM frame: its int16 samples (`np.frombuffer(data, dtype=np.int16)`). -/
abbrev Frame := List Int

/-- Constant `chunk_size = 1024` samples per frame. -/
def chunk_size : Nat := 1024

/-- Constant `sample_rate = 16000` Hz. -/
def sample_rate : Nat := 16000

/-- Constant `silence_threshold = 100`. -/
def silence_threshold : ℚ := 100

/-- Constant `silence_duration_threshold = 1.2` seconds. -/
def silence_duration_threshold : ℚ := mkRat 12 10

/-- Constant `min_speech_duration = 0.5` seconds. -/
def min_speech_duration : ℚ := mkRat 5 10

/-- Constant `max_speech_duration = 8.0` seconds. -/
def max_speech_duration : ℚ := 8

/-- Product `silence_threshold * 0.7`, which is exactly `70.0` in float (the
product `100 * 0.7` rounds to `70.0` in IEEE double precision). -/
def short_sentence_volume_cutoff : ℚ := mkRat 70 1

/-- Value `int(0.3 * sample_rate / chunk_size) = int(4.6875) = 4`: number of
trailing frames retained after an in-loop utterance closure. -/
def keep_frames : Nat := 4

/-- Volume `volume = np.mean(np.abs(audio_data))` guarded by `len(audio_data) > 0`
(the NaN/inf guard never fires on finite integer data).  For 1024-sample
frames the float mean is exact, so the rational value is faithful. -/
def volumeOf (data : Frame) : ℚ :=
  if 0 < data.length then mkRat ((data.map Int.natAbs).sum : Int) data.length else 0

/-- Duration `len(buffer) * chunk_size / sample_rate`: duration in seconds of `n`
frames (also used for `silence_frames`).  The formula yields `0` for an
empty buffer, matching the `else`-branch of the source. -/
def framesDuration (n : Nat) : ℚ := mkRat ((n * chunk_size : Nat) : Int) sample_rate

/-- The mutable segmentation state of `WhisperSpeechRecognizer`, plus the
log of buffers passed to `_process_speech`. -/
structure SegState where
  audio_buffer : List Frame
  silence_frames : Nat
  is_speaking : Bool
  emitted : List (List Frame)
deriving DecidableEq

/-- Initial state from `__init__`: empty buffer, zero silence counter, not
speaking, nothing emitted. -/
def initState : SegState := { audio_buffer := [], silence_frames := 0, is_speaking := false, emitted := [] }

/-- The voice-activity update of one loop iteration (`if volume >
self.silence_threshold: ... else: ...` in `_process_audio_stream`): an
above-threshold frame resets the silence counter and starts or extends the
buffer; a sub-threshold frame increments the counter and is appended only
while speaking. -/
def vadUpdate (st : SegState) (data : Frame) : SegState :=
  if silence_threshold < volumeOf data then
    if st.is_speaking = true then
      { st with audio_buffer := st.audio_buffer ++ [data], silence_frames := 0 }
    else
      { st with is_speaking := true, audio_buffer := [data], silence_frames := 0 }
  else
    { st with silence_frames := st.silence_frames + 1,
              audio_buffer := if st.is_speaking = true then st.audio_buffer ++ [data] else st.audio_buffer }

/-- The closure conditions (`should_process`) evaluated after the VAD
update: silence closure, max-length closure, short-utterance closure (the
`if/elif` chain only selects the printed reason, so it is a disjunction).
`v` is the volume of the current frame. -/
abbrev should_process (st1 : SegState) (v : ℚ) : Prop :=
  st1.is_speaking = true ∧
    ((silence_duration_threshold ≤ framesDuration st1.silence_frames ∧
      min_speech_duration ≤ framesDuration st1.audio_buffer.length) ∨
     max_speech_duration ≤ framesDuration st1.audio_buffer.length ∨
     ((1 : ℚ) ≤ framesDuration st1.audio_buffer.length ∧
      mkRat 8 10 ≤ framesDuration st1.silence_frames ∧
      v < short_sentence_volume_cutoff))

/-- The in-loop utterance closure: the joined buffer is handed to
`_process_speech` (logged in `emitted`), the trailing `keep_frames` frames
are retained (`audio_buffer[-keep_frames:]`, or `[]` when the buffer is not
longer than that), the speaking flag and silence counter are reset. -/
def closeUtterance (st1 : SegState) : SegState :=
  { audio_buffer :=
      if keep_frames < st1.audio_buffer.length then
        st1.audio_buffer.drop (st1.audio_buffer.length - keep_frames)
      else [],
    silence_frames := 0, is_speaking := false,
    emitted := st1.emitted ++ [st1.audio_buffer] }

/-- One iteration of the `while self._is_running` loop of
`_process_audio_stream`.  `some data` models a frame obtained from
`audio_queue.get`; `none` models the `queue.Empty` timeout handler (which
closes without retaining context and without resetting the silence
counter).  Status/volume signal emissions and debug prints are omitted
(they do not touch the segmentation state). -/
def segStep (st : SegState) (ev : Option Frame) : SegState :=
  match ev with
  | none =>
      -- `except queue.Empty:` handler
      if st.is_speaking = true ∧ st.audio_buffer ≠ [] then
        if min_speech_duration ≤ framesDuration st.audio_buffer.length then
          { audio_buffer := [], silence_frames := st.silence_frames,
            is_speaking := false, emitted := st.emitted ++ [st.audio_buffer] }
        else st
      else st
  | some data =>
      -- `if not data: continue`
      if data = [] then st
      else
        let st1 : SegState := vadUpdate st data
        if should_process st1 (volumeOf data) ∧ st1.audio_buffer ≠ [] then
          closeUtterance st1
        else st1

/-- Run the loop over a list of events. -/
def runSeg (st : SegState) (evs : List (Option Frame)) : SegState := evs.foldl segStep st

/-! Part: Recognition of one utterance (`WhisperSpeechRecognizer._process_speech`)

The external Whisper call is a boundary: its outcome is either a returned
result (`ok raw language`, where `raw` is `result["text"]` and `language`
is `result.get("language", ...)`), or a raised exception (`exn`, landing in
the `except Exception` handler; this also covers a raise from the WAV
writing before the call).  The observable effects of the function are whether
`os.unlink(temp_path)` ran and which `text_recognized` payload, if any,
was emitted. -/

/-- Outcome of `self.model.transcribe(...)` (with the preceding temp-file
setup): a returned result or a raised exception. -/
inductive TranscribeOutcome where
  | ok (rawText : List Char) (language : Option String)
  | exn
deriving DecidableEq

/-- Observable effects of `_process_speech`. -/
structure SpeechEffects where
  temp_deleted : Bool
  recognized : Option (List Char × String)
deriving DecidableEq

/-- Model of `_process_speech`: on a returned result, `text` is the stripped
transcription, the temp file is unlinked (the inner `try/except: pass` only
guards the unlink itself), and `text_recognized` fires iff `text and
len(text) > 1`; on a raised exception control jumps to the outer handler
and the unlink is skipped. -/
def _process_speech (outcome : TranscribeOutcome) : SpeechEffects :=
  match outcome with
  | .ok rawText language =>
      let text := trim rawText
      { temp_deleted := true,
        recognized :=
          if text ≠ [] ∧ 1 < text.length then some (text, language.getD ("unknown")) else none }
  | .exn => { temp_deleted := false, recognized := none }

/-! Part: Subtitle state tracker (`DraggableSubtitleWindow`)

The two subtitle slots and the three handlers that touch them.  The
translation task queue of `TranslationWorker` is modelled as the list of
enqueued `(text, source_language)` pairs. -/

/-- One subtitle slot: `{"original": ..., "translation": ..., "language": ...}`. -/
structure SubtitleEntry where
  original : List Char
  translation : List Char
  language : String
deriving DecidableEq

/-- The pair of slots `previous_subtitle` / `current_subtitle`. -/
structure TrackerState where
  previous_subtitle : SubtitleEntry
  current_subtitle : SubtitleEntry
deriving DecidableEq

/-- The optimistic placeholder `"🔄 翻译中..."` installed on recognition. -/
def pending_marker : List Char := ("🔄 翻译中...".data)

/-- The failure marker `"❌ 翻译失败"` installed by `on_translation_failed`
(the error message is only printed, never displayed). -/
def failure_marker : List Char := ("❌ 翻译失败".data)

/-- Model of `TranslationWorker.add_translation_task`: enqueue `(text,
source_language)` only when `text and text.strip()` is truthy. -/
def add_translation_task (request_queue : List (List Char × String))
    (text : List Char) (source_language : String) : List (List Char × String) :=
  if text ≠ [] ∧ trim text ≠ [] then request_queue ++ [(text, source_language)] else request_queue

/-- Model of `DraggableSubtitleWindow.on_speech_recognized`: demote a
non-empty `current_subtitle` to `previous_subtitle`, install the new
current entry with the pending marker, and submit the translation task
(the `if self.translation_worker` guard always holds after `__init__`
started the worker; display/label updates are rendering only). -/
def on_speech_recognized (st : TrackerState) (request_queue : List (List Char × String))
    (text : List Char) (detected_language : String) :
    TrackerState × List (List Char × String) :=
  let st1 : TrackerState :=
    { previous_subtitle :=
        if st.current_subtitle.original ≠ [] then st.current_subtitle else st.previous_subtitle,
      current_subtitle :=
        { original := text, translation := pending_marker, language := detected_language } }
  (st1, add_translation_task request_queue text detected_language)

/-- Model of `DraggableSubtitleWindow.on_translation_finished`: write the
translation into the current slot only when its original text still
matches; otherwise no state is touched.  `source_language` is unused in
the source body as well. -/
def on_translation_finished (st : TrackerState) (original_text translated_text : List Char)
    (source_language : String) : TrackerState :=
  if st.current_subtitle.original = original_text then
    { st with current_subtitle := { st.current_subtitle with translation := translated_text } }
  else st

/-- Model of `DraggableSubtitleWindow.on_translation_failed`: same equality
gate; writes the fixed failure marker (`error_msg` is only printed). -/
def on_translation_failed (st : TrackerState) (original_text error_msg : List Char) : TrackerState :=
  if st.current_subtitle.original = original_text then
    { st with current_subtitle := { st.current_subtitle with translation := failure_marker } }
  else st

/-! Part: Lemmas about trimming -/

theorem length_dropWhile_le (p : Char → Bool) (l : List Char) :
    (l.dropWhile p).length ≤ l.length := by
  induction l with
  | nil => simp
  | cons a t ih =>
    by_cases h : p a
    · rw [List.dropWhile_cons_of_pos h]; exact Nat.le_succ_of_le ih
    · rw [List.dropWhile_cons_of_neg h]

theorem dropWhile_dropWhile (p : Char → Bool) (l : List Char) :
    (l.dropWhile p).dropWhile p = l.dropWhile p := by
  induction l with
  | nil => rfl
  | cons a t ih =>
    by_cases h : p a
    · rw [List.dropWhile_cons_of_pos h]; exact ih
    · rw [List.dropWhile_cons_of_neg h, List.dropWhile_cons_of_neg h]

theorem dropWhile_append_last (p : Char → Bool) (a : Char) (h : p a = false) (l : List Char) :
    (l ++ [a]).dropWhile p = l.dropWhile p ++ [a] := by
  induction l with
  | nil => simp [List.dropWhile_cons, h]
  | cons b t ih =>
    by_cases hb : p b
    · rw [List.cons_append, List.dropWhile_cons_of_pos hb, List.dropWhile_cons_of_pos hb, ih]
    · rw [List.cons_append, List.dropWhile_cons_of_neg hb, List.dropWhile_cons_of_neg hb,
        List.cons_append]

theorem head_false_of_dropWhile_eq_cons (p : Char → Bool) (l : List Char) (a : Char)
    (t : List Char) (h : l.dropWhile p = a :: t) : p a = false := by
  induction l with
  | nil => simp at h
  | cons b l2 ih =>
    by_cases hb : p b
    · rw [List.dropWhile_cons_of_pos hb] at h; exact ih h
    · rw [List.dropWhile_cons_of_neg hb] at h
      cases h
      simpa using hb

theorem trimR_cons (a : Char) (t : List Char) (h : wsp a = false) :
    trimR (a :: t) = a :: trimR t := by
  unfold trimR
  rw [List.reverse_cons, dropWhile_append_last wsp a h, List.reverse_append]
  simp

theorem trimR_trimR (l : List Char) : trimR (trimR l) = trimR l := by
  unfold trimR
  rw [List.reverse_reverse, dropWhile_dropWhile]

theorem trimL_trimL (l : List Char) : trimL (trimL l) = trimL l :=
  dropWhile_dropWhile wsp l

theorem trimL_trimR_of_fix (x : List Char) (hx : trimL x = x) : trimL (trimR x) = trimR x := by
  cases hc : x with
  | nil => simp [trimR, trimL]
  | cons a t =>
    subst hc
    have ha : wsp a = false := by
      by_cases hwa : wsp a
      · exfalso
        unfold trimL at hx
        rw [List.dropWhile_cons_of_pos hwa] at hx
        have := length_dropWhile_le wsp t
        rw [hx] at this
        simp at this
      · simpa using hwa
    rw [trimR_cons a t ha]
    unfold trimL
    rw [List.dropWhile_cons_of_neg (by simp [ha])]

theorem trim_trim (l : List Char) : trim (trim l) = trim l := by
  unfold trim
  rw [trimL_trimR_of_fix (trimL l) (trimL_trimL l), trimR_trimR]

/-! Part: Lemmas about the cleaning loop -/

theorem clean_foldl_eq_strip_listed (ps : List (List Char)) (t : List Char) :
    ps.foldl (fun t p => if p.isPrefixOf t then trim (t.drop p.length) else t) t =
      strip_listed_in_order ps t := by
  induction ps generalizing t with
  | nil => rfl
  | cons p rest ih =>
    rw [List.foldl_cons]
    unfold strip_listed_in_order
    by_cases h : p.isPrefixOf t
    · rw [if_pos h, if_pos h, ih]
    · rw [if_neg h, if_neg h, ih]

theorem strip_listed_of_no_match (ps : List (List Char)) (t : List Char)
    (h : ∀ p ∈ ps, ¬ p.isPrefixOf t) : strip_listed_in_order ps t = t := by
  induction ps with
  | nil => rfl
  | cons p rest ih =>
    unfold strip_listed_in_order
    rw [if_neg (by simpa using h p (by simp))]
    exact ih (fun q hq => h q (by simp [hq]))

/-! Part: Arithmetic characterizations of the closure thresholds

With `chunk_size = 1024` and `sample_rate = 16000`, a frame lasts `0.064 s`;
the duration comparisons of the loop are equivalent to the frame-count
bounds below (`1.2 s ↔ 19` frames, `0.5 s ↔ 8`, `8.0 s ↔ 125`, `1.0 s ↔ 16`,
`0.8 s ↔ 13`). -/

theorem silence_closure_frames_iff (k : Nat) :
    silence_duration_threshold ≤ framesDuration k ↔ 19 ≤ k := by
  unfold silence_duration_threshold framesDuration chunk_size sample_rate
  rw [Rat.mkRat_eq_div, Rat.mkRat_eq_div, div_le_div_iff (by norm_num) (by norm_num)]
  push_cast
  constructor
  · intro h
    by_contra hk
    push_neg at hk
    have hk2 : (k : ℚ) ≤ 18 := by exact_mod_cast Nat.le_of_lt_succ hk
    linarith
  · intro h
    have hk2 : (19 : ℚ) ≤ (k : ℚ) := by exact_mod_cast h
    linarith

theorem min_speech_frames_iff (n : Nat) :
    min_speech_duration ≤ framesDuration n ↔ 8 ≤ n := by
  unfold min_speech_duration framesDuration chunk_size sample_rate
  rw [Rat.mkRat_eq_div, Rat.mkRat_eq_div, div_le_div_iff (by norm_num) (by norm_num)]
  push_cast
  constructor
  · intro h
    by_contra hk
    push_neg at hk
    have hk2 : (n : ℚ) ≤ 7 := by exact_mod_cast Nat.le_of_lt_succ hk
    linarith
  · intro h
    have hk2 : (8 : ℚ) ≤ (n : ℚ) := by exact_mod_cast h
    linarith

theorem max_speech_frames_iff (n : Nat) :
    max_speech_duration ≤ framesDuration n ↔ 125 ≤ n := by
  unfold max_speech_duration framesDuration chunk_size sample_rate
  rw [Rat.mkRat_eq_div, le_div_iff (by norm_num)]
  push_cast
  constructor
  · intro h
    by_contra hk
    push_neg at hk
    have hk2 : (n : ℚ) ≤ 124 := by exact_mod_cast Nat.le_of_lt_succ hk
    linarith
  · intro h
    have hk2 : (125 : ℚ) ≤ (n : ℚ) := by exact_mod_cast h
    linarith

theorem one_second_frames_iff (n : Nat) :
    (1 : ℚ) ≤ framesDuration n ↔ 16 ≤ n := by
  unfold framesDuration chunk_size sample_rate
  rw [Rat.mkRat_eq_div, le_div_iff (by norm_num)]
  push_cast
  constructor
  · intro h
    by_contra hk
    push_neg at hk
    have hk2 : (n : ℚ) ≤ 15 := by exact_mod_cast Nat.le_of_lt_succ hk
    linarith
  · intro h
    have hk2 : (16 : ℚ) ≤ (n : ℚ) := by exact_mod_cast h
    linarith

theorem short_silence_frames_iff (k : Nat) :
    mkRat 8 10 ≤ framesDuration k ↔ 13 ≤ k := by
  unfold framesDuration chunk_size sample_rate
  rw [Rat.mkRat_eq_div, Rat.mkRat_eq_div, div_le_div_iff (by norm_num) (by norm_num)]
  push_cast
  constructor
  · intro h
    by_contra hk
    push_neg at hk
    have hk2 : (k : ℚ) ≤ 12 := by exact_mod_cast Nat.le_of_lt_succ hk
    linarith
  · intro h
    have hk2 : (13 : ℚ) ≤ (k : ℚ) := by exact_mod_cast h
    linarith

theorem volumeOf_nil : volumeOf [] = 0 := by
  simp [volumeOf]

theorem ne_nil_of_volume_gt (f : Frame) (h : silence_threshold < volumeOf f) : f ≠ [] := by
  intro he
  rw [he, volumeOf_nil] at h
  unfold silence_threshold at h
  norm_num at h

theorem ne_nil_of_cutoff_le (f : Frame) (h : short_sentence_volume_cutoff ≤ volumeOf f) :
    f ≠ [] := by
  intro he
  rw [he, volumeOf_nil] at h
  unfold short_sentence_volume_cutoff at h
  rw [Rat.mkRat_eq_div] at h
  norm_num at h

/-- Sanity check: `silence_threshold * 0.7` really is the constant used in the model. -/
theorem short_sentence_volume_cutoff_eq :
    short_sentence_volume_cutoff = silence_threshold * (7 / 10 : ℚ) := by
  unfold short_sentence_volume_cutoff silence_threshold
  rw [Rat.mkRat_eq_div]
  norm_num

/-! Part: Step lemmas for the segmentation loop -/

/-- Frame-count form of the closure conditions: silence closure at 19
silence frames with at least 8 buffered frames, max-length closure at 125
buffered frames, short-utterance closure at 16 buffered and 13 silence
frames with a volume under `70`. -/
theorem should_process_frames_iff (st1 : SegState) (v : ℚ) :
    should_process st1 v ↔
      st1.is_speaking = true ∧
        ((19 ≤ st1.silence_frames ∧ 8 ≤ st1.audio_buffer.length) ∨
         125 ≤ st1.audio_buffer.length ∨
         (16 ≤ st1.audio_buffer.length ∧ 13 ≤ st1.silence_frames ∧
          v < short_sentence_volume_cutoff)) := by
  unfold should_process
  rw [silence_closure_frames_iff, min_speech_frames_iff, max_speech_frames_iff,
    one_second_frames_iff, short_silence_frames_iff]

theorem segStep_none_not_speaking (st : SegState) (hs : st.is_speaking = false) :
    segStep st none = st := by
  simp [segStep, hs]

theorem segStep_none_emit (st : SegState) (hs : st.is_speaking = true)
    (hb : st.audio_buffer ≠ []) (hd : 8 ≤ st.audio_buffer.length) :
    segStep st none =
      { audio_buffer := [], silence_frames := st.silence_frames,
        is_speaking := false, emitted := st.emitted ++ [st.audio_buffer] } := by
  simp only [segStep]
  rw [if_pos ⟨hs, hb⟩, if_pos ((min_speech_frames_iff _).mpr hd)]

theorem segStep_none_noemit (st : SegState) (hd : st.audio_buffer.length ≤ 7) :
    segStep st none = st := by
  simp only [segStep]
  by_cases hc : st.is_speaking = true ∧ st.audio_buffer ≠ []
  · rw [if_pos hc, if_neg]
    intro hmin
    rw [min_speech_frames_iff] at hmin
    omega
  · rw [if_neg hc]

theorem segStep_empty_data (st : SegState) : segStep st (some []) = st := by
  simp [segStep]

theorem segStep_loud_start (st : SegState) (f : Frame)
    (hv : silence_threshold < volumeOf f) (hs : st.is_speaking = false) :
    segStep st (some f) =
      { audio_buffer := [f], silence_frames := 0, is_speaking := true,
        emitted := st.emitted } := by
  have hf : f ≠ [] := ne_nil_of_volume_gt f hv
  simp [segStep, vadUpdate, should_process_frames_iff, hf, hv, hs]

theorem segStep_loud_cont_noemit (st : SegState) (f : Frame)
    (hv : silence_threshold < volumeOf f) (hs : st.is_speaking = true)
    (hb : st.audio_buffer.length + 1 ≤ 124) :
    segStep st (some f) =
      { audio_buffer := st.audio_buffer ++ [f], silence_frames := 0, is_speaking := true,
        emitted := st.emitted } := by
  have hf : f ≠ [] := ne_nil_of_volume_gt f hv
  have h2 : ¬ (125 ≤ st.audio_buffer.length + 1) := by omega
  simp [segStep, vadUpdate, should_process_frames_iff, hf, hv, hs, h2]

theorem segStep_loud_cont_emit (st : SegState) (f : Frame)
    (hv : silence_threshold < volumeOf f) (hs : st.is_speaking = true)
    (hb : 125 ≤ st.audio_buffer.length + 1) :
    (segStep st (some f)).emitted = st.emitted ++ [st.audio_buffer ++ [f]] ∧
      (segStep st (some f)).is_speaking = false := by
  have hf : f ≠ [] := ne_nil_of_volume_gt f hv
  simp [segStep, vadUpdate, closeUtterance, should_process_frames_iff, hf, hv, hs, hb]

theorem segStep_quiet_idle (st : SegState) (f : Frame) (hf : f ≠ [])
    (hv : ¬ silence_threshold < volumeOf f) (hs : st.is_speaking = false) :
    segStep st (some f) = { st with silence_frames := st.silence_frames + 1 } := by
  simp [segStep, vadUpdate, should_process_frames_iff, hf, hv, hs]

theorem segStep_quiet_speaking_noemit (st : SegState) (f : Frame)
    (hv : ¬ silence_threshold < volumeOf f)
    (h70 : short_sentence_volume_cutoff ≤ volumeOf f)
    (hs : st.is_speaking = true)
    (hj : st.silence_frames + 1 ≤ 18) (hb : st.audio_buffer.length + 1 ≤ 124) :
    segStep st (some f) =
      { audio_buffer := st.audio_buffer ++ [f], silence_frames := st.silence_frames + 1,
        is_speaking := true, emitted := st.emitted } := by
  have hf : f ≠ [] := ne_nil_of_cutoff_le f h70
  have h1 : ¬ (19 ≤ st.silence_frames + 1) := by omega
  have h2 : ¬ (125 ≤ st.audio_buffer.length + 1) := by omega
  have h3 : ¬ (volumeOf f < short_sentence_volume_cutoff) := not_lt.mpr h70
  simp [segStep, vadUpdate, should_process_frames_iff, hf, hv, hs, h1, h2, h3]

theorem segStep_quiet_speaking_emit (st : SegState) (f : Frame)
    (hv : ¬ silence_threshold < volumeOf f)
    (h70 : short_sentence_volume_cutoff ≤ volumeOf f)
    (hs : st.is_speaking = true)
    (hfire : (19 ≤ st.silence_frames + 1 ∧ 8 ≤ st.audio_buffer.length + 1) ∨
             125 ≤ st.audio_buffer.length + 1) :
    (segStep st (some f)).emitted = st.emitted ++ [st.audio_buffer ++ [f]] ∧
      (segStep st (some f)).is_speaking = false := by
  have hf : f ≠ [] := ne_nil_of_cutoff_le f h70
  have hsp : should_process (vadUpdate st f) (volumeOf f) := by
    rw [should_process_frames_iff]
    refine ⟨by simp [vadUpdate, hv, hs], ?_⟩
    have hb1 : (vadUpdate st f).audio_buffer.length = st.audio_buffer.length + 1 := by
      simp [vadUpdate, hv, hs]
    have hj1 : (vadUpdate st f).silence_frames = st.silence_frames + 1 := by
      simp [vadUpdate, hv, hs]
    rw [hb1, hj1]
    rcases hfire with ⟨h19, h8⟩ | h125
    · exact Or.inl ⟨h19, h8⟩
    · exact Or.inr (Or.inl h125)
  have hne : (vadUpdate st f).audio_buffer ≠ [] := by
    simp [vadUpdate, hv, hs]
  simp only [segStep]
  rw [if_neg hf, if_pos ⟨hsp, hne⟩]
  simp [closeUtterance, vadUpdate, hv, hs]

/-! Part: Run-level lemmas for the segmentation loop -/

theorem runSeg_nil (st : SegState) : runSeg st [] = st := rfl

theorem runSeg_cons (st : SegState) (ev : Option Frame) (evs : List (Option Frame)) :
    runSeg st (ev :: evs) = runSeg (segStep st ev) evs := rfl

theorem runSeg_append (st : SegState) (evs1 evs2 : List (Option Frame)) :
    runSeg st (evs1 ++ evs2) = runSeg (runSeg st evs1) evs2 :=
  List.foldl_append segStep st evs1 evs2

theorem segStep_emitted_extend (st : SegState) (ev : Option Frame) :
    ∃ l, (segStep st ev).emitted = st.emitted ++ l := by
  rcases ev with _ | f
  · simp only [segStep]
    split_ifs
    · exact ⟨[st.audio_buffer], rfl⟩
    · exact ⟨[], by simp⟩
    · exact ⟨[], by simp⟩
  · simp only [segStep]
    split_ifs with h1 h2
    · exact ⟨[], by simp⟩
    · refine ⟨[(vadUpdate st f).audio_buffer], ?_⟩
      have : (vadUpdate st f).emitted = st.emitted := by
        unfold vadUpdate
        split_ifs <;> rfl
      simp [closeUtterance, this]
    · refine ⟨[], ?_⟩
      have : (vadUpdate st f).emitted = st.emitted := by
        unfold vadUpdate
        split_ifs <;> rfl
      simp [this]

theorem runSeg_emitted_extend (evs : List (Option Frame)) (st : SegState) :
    ∃ l, (runSeg st evs).emitted = st.emitted ++ l := by
  induction evs generalizing st with
  | nil => exact ⟨[], by simp [runSeg]⟩
  | cons ev rest ih =>
    obtain ⟨l1, h1⟩ := segStep_emitted_extend st ev
    obtain ⟨l2, h2⟩ := ih (segStep st ev)
    refine ⟨l1 ++ l2, ?_⟩
    show (runSeg (segStep st ev) rest).emitted = _
    rw [h2, h1, List.append_assoc]

/-- While not speaking, sub-threshold input (including empty reads and
queue timeouts) leaves the buffer, the speaking flag and the emission log
untouched. -/
theorem idle_run (evs : List (Option Frame)) (st : SegState)
    (hs : st.is_speaking = false)
    (hq : ∀ f : Frame, some f ∈ evs → volumeOf f ≤ silence_threshold) :
    (runSeg st evs).emitted = st.emitted ∧ (runSeg st evs).is_speaking = false ∧
      (runSeg st evs).audio_buffer = st.audio_buffer := by
  induction evs generalizing st with
  | nil => exact ⟨rfl, hs, rfl⟩
  | cons ev rest ih =>
    rcases ev with _ | f
    · rw [runSeg_cons, segStep_none_not_speaking st hs]
      exact ih st hs (fun f hf => hq f (by simp [hf]))
    · by_cases hf : f = []
      · subst hf
        rw [runSeg_cons, segStep_empty_data st]
        exact ih st hs (fun g hg => hq g (by simp [hg]))
      · have hv : ¬ silence_threshold < volumeOf f :=
          not_lt.mpr (hq f (by simp))
        rw [runSeg_cons, segStep_quiet_idle st f hf hv hs]
        exact ih _ hs (fun g hg => hq g (by simp [hg]))

/-- A run of above-threshold frames that keeps the buffer under 125 frames
just extends the buffer: no closure fires. -/
theorem loud_run_exact (L : List Frame) (st : SegState)
    (hL : ∀ f ∈ L, silence_threshold < volumeOf f)
    (hs : st.is_speaking = true) (hz : st.silence_frames = 0)
    (hb : st.audio_buffer.length + L.length ≤ 124) :
    runSeg st (L.map some) =
      { audio_buffer := st.audio_buffer ++ L, silence_frames := 0, is_speaking := true,
        emitted := st.emitted } := by
  induction L generalizing st with
  | nil =>
    simp only [List.map_nil]
    show st = _
    cases st
    simp_all
  | cons f L2 ih =>
    have hv : silence_threshold < volumeOf f := hL f (by simp)
    have hb1 : st.audio_buffer.length + 1 ≤ 124 := by
      simp [List.length_cons] at hb
      omega
    rw [List.map_cons, runSeg_cons, segStep_loud_cont_noemit st f hv hs hb1]
    rw [ih _ (fun g hg => hL g (by simp [hg])) rfl rfl
      (by simp [List.length_append]; simp [List.length_cons] at hb; omega)]
    simp

/-- A run of above-threshold frames that pushes the buffer to 125 frames
closes an utterance (max-length closure): the emission log grows. -/
theorem loud_run_grows (L : List Frame) (st : SegState)
    (hL : ∀ f ∈ L, silence_threshold < volumeOf f)
    (hs : st.is_speaking = true) (hz : st.silence_frames = 0)
    (hb : st.audio_buffer.length ≤ 124)
    (hfill : 125 ≤ st.audio_buffer.length + L.length) :
    st.emitted.length < (runSeg st (L.map some)).emitted.length := by
  induction L generalizing st with
  | nil => simp at hfill; omega
  | cons f L2 ih =>
    have hv : silence_threshold < volumeOf f := hL f (by simp)
    by_cases hful : 125 ≤ st.audio_buffer.length + 1
    · have hemit := segStep_loud_cont_emit st f hv hs hful
      rw [List.map_cons, runSeg_cons]
      obtain ⟨l2, h2⟩ := runSeg_emitted_extend (L2.map some) (segStep st (some f))
      rw [h2, hemit.1]
      simp
    · have hb1 : st.audio_buffer.length + 1 ≤ 124 := by omega
      rw [List.map_cons, runSeg_cons, segStep_loud_cont_noemit st f hv hs hb1]
      have := ih (SegState.mk (st.audio_buffer ++ [f]) 0 true st.emitted)
        (fun g hg => hL g (by simp [hg])) rfl rfl
        (by simp [List.length_append]; omega)
        (by simp [List.length_append]; simp [List.length_cons] at hfill; omega)
      simpa using this

/-- The quiet phase after speech: with frames whose volume lies in
`[0.7 * threshold, threshold]`, an utterance closes exactly when the
silence run reaches 19 frames or the buffer reaches 125 frames. -/
theorem quiet_phase (Q : List Frame) (st : SegState)
    (hQ : ∀ f ∈ Q, short_sentence_volume_cutoff ≤ volumeOf f ∧
      volumeOf f ≤ silence_threshold)
    (hs : st.is_speaking = true)
    (hj : st.silence_frames ≤ 18) (hb : st.audio_buffer.length ≤ 124)
    (hjb : st.silence_frames < st.audio_buffer.length) :
    st.emitted.length < (runSeg st (Q.map some)).emitted.length ↔
      (19 ≤ st.silence_frames + Q.length ∨ 125 ≤ st.audio_buffer.length + Q.length) := by
  induction Q generalizing st with
  | nil =>
    simp only [List.map_nil]
    show st.emitted.length < st.emitted.length ↔ _
    constructor
    · omega
    · intro h
      simp at h
      omega
  | cons f Q2 ih =>
    have h70 : short_sentence_volume_cutoff ≤ volumeOf f := (hQ f (by simp)).1
    have hv : ¬ silence_threshold < volumeOf f := not_lt.mpr (hQ f (by simp)).2
    by_cases hfire : 19 ≤ st.silence_frames + 1 ∨ 125 ≤ st.audio_buffer.length + 1
    · have hfire2 : (19 ≤ st.silence_frames + 1 ∧ 8 ≤ st.audio_buffer.length + 1) ∨
          125 ≤ st.audio_buffer.length + 1 := by
        rcases hfire with h19 | h125
        · exact Or.inl ⟨h19, by omega⟩
        · exact Or.inr h125
      have hemit := segStep_quiet_speaking_emit st f hv h70 hs hfire2
      have hidle := idle_run (Q2.map some) (segStep st (some f)) hemit.2
        (by
          intro g hg
          simp at hg
          exact (hQ g (by simp [hg])).2)
      rw [List.map_cons, runSeg_cons, hidle.1, hemit.1]
      simp only [List.length_append, List.length_cons]
      constructor
      · intro _
        omega
      · intro _
        simp
    · push_neg at hfire
      have hj1 : st.silence_frames + 1 ≤ 18 := by omega
      have hb1 : st.audio_buffer.length + 1 ≤ 124 := by omega
      rw [List.map_cons, runSeg_cons, segStep_quiet_speaking_noemit st f hv h70 hs hj1 hb1]
      have := ih (SegState.mk (st.audio_buffer ++ [f]) (st.silence_frames + 1) true st.emitted)
        (fun g hg => hQ g (by simp [hg])) rfl
        (show st.silence_frames + 1 ≤ 18 by omega)
        (show (st.audio_buffer ++ [f]).length ≤ 124 by simp [List.length_append]; omega)
        (show st.silence_frames + 1 < (st.audio_buffer ++ [f]).length by
          simp [List.length_append]; omega)
      simp only [SegState.silence_frames, SegState.audio_buffer, SegState.emitted,
        List.length_append, List.length_singleton] at this
      rw [this]
      simp only [List.length_cons]
      omega

/-! Part: Helper lemmas shared by the claim theorems -/

theorem clean_eq_strip_ordered (t : List Char) :
    _clean_translation t = trim (strip_listed_in_order remove_prefixes t) := by
  unfold _clean_translation
  rw [clean_foldl_eq_strip_listed]

theorem vadUpdate_emitted (st : SegState) (f : Frame) :
    (vadUpdate st f).emitted = st.emitted := by
  unfold vadUpdate
  split_ifs <;> rfl

theorem closeUtterance_buffer_le (st1 : SegState) :
    (closeUtterance st1).audio_buffer.length ≤ keep_frames := by
  show (if keep_frames < st1.audio_buffer.length then
      st1.audio_buffer.drop (st1.audio_buffer.length - keep_frames) else []).length ≤ keep_frames
  split_ifs with h
  · rw [List.length_drop]
    omega
  · simp

/-! Part: Claim theorems -/

/-- Claim C1: for every tracker state, `on_translation_finished(original,
translation, language)` writes `translation` into the translation field of the current
slot, leaving the current original/language and the whole
previous slot unchanged, exactly when `current.original = original`, and is
a complete no-op otherwise; `on_translation_failed` applies the identical
equality gate, writing the fixed failure marker. -/
theorem tracker_translation_result_gating (st : TrackerState) (o t e : List Char) (l : String) :
    (st.current_subtitle.original = o →
      (on_translation_finished st o t l).current_subtitle.translation = t ∧
      (on_translation_finished st o t l).current_subtitle.original = st.current_subtitle.original ∧
      (on_translation_finished st o t l).current_subtitle.language = st.current_subtitle.language ∧
      (on_translation_finished st o t l).previous_subtitle = st.previous_subtitle ∧
      (on_translation_failed st o e).current_subtitle.translation = failure_marker ∧
      (on_translation_failed st o e).current_subtitle.original = st.current_subtitle.original ∧
      (on_translation_failed st o e).previous_subtitle = st.previous_subtitle) ∧
    (st.current_subtitle.original ≠ o →
      on_translation_finished st o t l = st ∧ on_translation_failed st o e = st) := by
  constructor
  · intro h
    simp [on_translation_finished, on_translation_failed, h]
  · intro h
    simp [on_translation_finished, on_translation_failed, h]

/-- Witness for C1: a state whose current original is `"hi"` accepts the
translation for `"hi"` and silently discards a result for `"bye"`. -/
theorem tracker_translation_result_gating_witness :
    (on_translation_finished
      (TrackerState.mk (SubtitleEntry.mk [] [] "") (SubtitleEntry.mk ("hi".data) pending_marker ("en")))
      ("hi".data) ("你好".data) "en").current_subtitle.translation = ("你好".data) ∧
    on_translation_finished
      (TrackerState.mk (SubtitleEntry.mk [] [] "") (SubtitleEntry.mk ("hi".data) pending_marker ("en")))
      ("bye".data) ("再见".data) "en" =
      TrackerState.mk (SubtitleEntry.mk [] [] "") (SubtitleEntry.mk ("hi".data) pending_marker ("en")) := by
  constructor
  · exact ((tracker_translation_result_gating
      (TrackerState.mk (SubtitleEntry.mk [] [] "") (SubtitleEntry.mk ("hi".data) pending_marker ("en")))
      ("hi".data) ("你好".data) ("e".data) "en").1 rfl).1
  · exact ((tracker_translation_result_gating
      (TrackerState.mk (SubtitleEntry.mk [] [] "") (SubtitleEntry.mk ("hi".data) pending_marker ("en")))
      ("bye".data) ("再见".data) ("e".data) "en").2 (by decide)).1

/-- Claim C2: for every `(text, language)` pair actually delivered by the
recognizer (i.e. emitted by `_process_speech`), `on_speech_recognized`
demotes a non-empty current slot to previous (and leaves previous alone
otherwise), installs `{original := text, translation := pending, language}`
as the new current slot, and enqueues exactly `(text, language)`; the
translation callbacks never write `current.original`, so recognition is its
only writer. -/
theorem tracker_on_recognized_spec (raw : List Char) (language : Option String)
    (text : List Char) (lang : String) (st : TrackerState) (q : List (List Char × String))
    (h : (_process_speech (TranscribeOutcome.ok raw language)).recognized = some (text, lang)) :
    (st.current_subtitle.original ≠ [] →
      (on_speech_recognized st q text lang).1.previous_subtitle = st.current_subtitle) ∧
    (st.current_subtitle.original = [] →
      (on_speech_recognized st q text lang).1.previous_subtitle = st.previous_subtitle) ∧
    (on_speech_recognized st q text lang).1.current_subtitle =
      SubtitleEntry.mk text pending_marker lang ∧
    (on_speech_recognized st q text lang).2 = q ++ [(text, lang)] ∧
    (∀ (st2 : TrackerState) (o t2 e : List Char) (l : String),
      (on_translation_finished st2 o t2 l).current_subtitle.original =
        st2.current_subtitle.original ∧
      (on_translation_failed st2 o e).current_subtitle.original =
        st2.current_subtitle.original) := by
  have hrec : (_process_speech (TranscribeOutcome.ok raw language)).recognized =
      (if trim raw ≠ [] ∧ 1 < (trim raw).length
        then some (trim raw, language.getD ("unknown")) else none) := rfl
  rw [hrec] at h
  by_cases hc : trim raw ≠ [] ∧ 1 < (trim raw).length
  · rw [if_pos hc, Option.some.injEq, Prod.mk.injEq] at h
    have htext : text = trim raw := h.1.symm
    have hlen : 1 < text.length := by rw [htext]; exact hc.2
    have hne : text ≠ [] := by
      intro he
      rw [he] at hlen
      simp at hlen
    have htrim : trim text = text := by
      rw [htext]
      exact trim_trim raw
    refine ⟨?_, ?_, ?_, ?_, ?_⟩
    · intro hcur
      simp [on_speech_recognized, hcur]
    · intro hcur
      simp [on_speech_recognized, hcur]
    · simp [on_speech_recognized]
    · simp [on_speech_recognized, add_translation_task, hne, htrim]
    · intro st2 o t2 e l
      constructor
      · unfold on_translation_finished
        split_ifs <;> simp
      · unfold on_translation_failed
        split_ifs <;> simp
  · rw [if_neg hc] at h
    exact absurd h (by simp)

/-- Witness for C2: recognizing `" hello "` (stripped to `"hello"`, length
5 > 1) installs `"hello"` as the current original and enqueues exactly
`("hello", "en")`. -/
theorem tracker_on_recognized_spec_witness :
    (on_speech_recognized (TrackerState.mk (SubtitleEntry.mk [] [] "") (SubtitleEntry.mk [] [] ""))
      [] ("hello".data) "en").2 = [(("hello".data), "en")] ∧
    (on_speech_recognized (TrackerState.mk (SubtitleEntry.mk [] [] "") (SubtitleEntry.mk [] [] ""))
      [] ("hello".data) "en").1.current_subtitle =
      SubtitleEntry.mk ("hello".data) pending_marker ("en") := by
  have h := tracker_on_recognized_spec (" hello ".data) (some ("en")) ("hello".data) "en"
    (TrackerState.mk (SubtitleEntry.mk [] [] "") (SubtitleEntry.mk [] [] "")) [] (by decide)
  exact ⟨h.2.2.2.1, h.2.2.1⟩

/-- Counterexample for C3: the claim says only the first matching prefix is
stripped.  On `"Translation:: hi"` the code strips `"Translation:"` and
then also the later listed `":"`, returning `"hi"`, while the
first-match-only reading returns `": hi"`. -/
theorem clean_strips_multiple_cex :
    _clean_translation ("Translation:: hi".data) = ("hi".data) ∧
    clean_first_match_only ("Translation:: hi".data) = (": hi".data) ∧
    _clean_translation ("Translation:: hi".data) ≠
      clean_first_match_only ("Translation:: hi".data) := by
  refine ⟨by decide, by decide, by decide⟩

/-- Claim C3 (amended): `_clean_translation` walks the fixed ordered prefix
list once, case-sensitively; every entry that matches the current string at
its turn is removed (with whitespace trimmed after each removal), so
several listed prefixes can be stripped in one call — each list entry at
most once, earlier entries never rechecked — and the final result is
whitespace-trimmed. -/
theorem clean_strips_listed_in_order (t : List Char) :
    _clean_translation t = trim (strip_listed_in_order remove_prefixes t) :=
  clean_eq_strip_ordered t

/-- Counterexample for C4: cleaning `":Translation: hi"` once yields
`"Translation: hi"` (the early listed `"Translation:"` was already passed
when `":"` was stripped), and cleaning a second time yields `"hi"`, so
`clean` is not idempotent on all strings. -/
theorem clean_not_idempotent_cex :
    _clean_translation (_clean_translation (":Translation: hi".data)) ≠
      _clean_translation (":Translation: hi".data) := by
  decide

/-- Claim C4 (amended): `clean (clean s) = clean s` for every `s` whose
cleaned form starts with none of the listed prefixes (in particular on
already-clean text); in general a second pass can strip further. -/
theorem clean_idempotent_on_clean (s : List Char)
    (h : ∀ p ∈ remove_prefixes, ¬ p.isPrefixOf (_clean_translation s)) :
    _clean_translation (_clean_translation s) = _clean_translation s := by
  rw [clean_eq_strip_ordered (_clean_translation s), strip_listed_of_no_match _ _ h,
    clean_eq_strip_ordered s, trim_trim]

/-- Witness for C4: `"Translation: good"` cleans to `"good"`, which no
listed prefix matches, and cleaning again leaves it unchanged. -/
theorem clean_idempotent_on_clean_witness :
    (∀ p ∈ remove_prefixes, ¬ p.isPrefixOf (_clean_translation ("Translation: good".data))) ∧
    _clean_translation (_clean_translation ("Translation: good".data)) =
      _clean_translation ("Translation: good".data) := by
  constructor
  · decide
  · exact clean_idempotent_on_clean ("Translation: good".data) (by decide)

/-- Counterexample for C5: one above-threshold frame (`D = 0.064 s`,
below `min_speech_duration = 0.5 s`) followed by 19 sub-threshold frames
(`S = 1.216 s ≥ 1.2 s`) makes the code emit an utterance — the buffered
duration counts the silence frames too — although the predicate of the claim
`(D ≥ 0.5 ∧ S ≥ 1.2) ∨ D ≥ 8.0` is false. -/
theorem segmenter_claim5_cex :
    (runSeg initState ((([([200] : Frame)] ++ List.replicate 19 ([80] : Frame)).map some))).emitted
      ≠ [] ∧
    ¬ ((min_speech_duration ≤ framesDuration 1 ∧
        silence_duration_threshold ≤ framesDuration 19) ∨
       max_speech_duration ≤ framesDuration 1) := by
  constructor
  · decide
  · intro h
    rcases h with ⟨h1, _⟩ | h2
    · rw [min_speech_frames_iff] at h1
      omega
    · rw [max_speech_frames_iff] at h2
      omega

/-- Claim C5 (amended): for an above-threshold run of `d ≥ 1` frames
followed by a sub-threshold run of `s` frames whose volumes stay in
`[0.7 * threshold, threshold]` (so the short-utterance fast path is out of
play), an utterance is emitted iff the silence run reaches 19 frames
(`1.216 s ≥ silence_duration_threshold`; the buffered duration then
automatically exceeds `min_speech_duration`) or the total buffered
duration — speech plus silence — reaches 125 frames (`8.0 s =
max_speech_duration`). -/
theorem segmenter_run_emits_iff (L Q : List Frame)
    (hL1 : 1 ≤ L.length)
    (hL : ∀ f ∈ L, silence_threshold < volumeOf f)
    (hQ : ∀ f ∈ Q, short_sentence_volume_cutoff ≤ volumeOf f ∧
      volumeOf f ≤ silence_threshold) :
    (runSeg initState ((L ++ Q).map some)).emitted ≠ [] ↔
      (19 ≤ Q.length ∨ 125 ≤ L.length + Q.length) := by
  obtain ⟨f, L2, rfl⟩ : ∃ f L2, L = f :: L2 := by
    cases L with
    | nil => simp at hL1
    | cons a t => exact ⟨a, t, rfl⟩
  have hv : silence_threshold < volumeOf f := hL f (by simp)
  rw [List.map_append, runSeg_append, List.map_cons, runSeg_cons,
    segStep_loud_start initState f hv rfl]
  have hinit : SegState.mk [f] 0 true initState.emitted = SegState.mk [f] 0 true [] := rfl
  rw [hinit]
  by_cases hd : L2.length + 1 ≤ 124
  · have hrun2 : runSeg (SegState.mk [f] 0 true []) (L2.map some) =
        SegState.mk (f :: L2) 0 true [] :=
      loud_run_exact L2 (SegState.mk [f] 0 true [])
        (fun g hg => hL g (by simp [hg])) rfl rfl (by simp; omega)
    rw [hrun2]
    have hqp := quiet_phase Q (SegState.mk (f :: L2) 0 true []) hQ rfl
      (show (0 : Nat) ≤ 18 by omega)
      (show (f :: L2).length ≤ 124 by simp only [List.length_cons]; omega)
      (show (0 : Nat) < (f :: L2).length by simp)
    constructor
    · intro hne
      have h0 : 0 < (runSeg (SegState.mk (f :: L2) 0 true []) (Q.map some)).emitted.length :=
        List.length_pos.mpr hne
      have h2 := hqp.mp h0
      simp only [List.length_cons] at h2 ⊢
      omega
    · intro hOr
      have h2 : 0 < (runSeg (SegState.mk (f :: L2) 0 true []) (Q.map some)).emitted.length := by
        apply hqp.mpr
        simp only [List.length_cons] at hOr ⊢
        omega
      exact List.length_pos.mp h2
  · have hgrow := loud_run_grows L2 (SegState.mk [f] 0 true [])
      (fun g hg => hL g (by simp [hg])) rfl rfl (by simp) (by simp; omega)
    have hne : (runSeg (SegState.mk [f] 0 true []) (L2.map some)).emitted ≠ [] := by
      intro he
      rw [he] at hgrow
      simp at hgrow
    obtain ⟨l2, hext⟩ :=
      runSeg_emitted_extend (Q.map some) (runSeg (SegState.mk [f] 0 true []) (L2.map some))
    constructor
    · intro _
      right
      simp only [List.length_cons]
      omega
    · intro _
      rw [hext]
      intro hcontra
      rw [List.append_eq_nil] at hcontra
      exact hne hcontra.1

/-- Witness for C5 (amended): one loud frame plus 19 quiet frames at
volume 80 emits (silence rule, 19 frames of silence). -/
theorem segmenter_run_emits_iff_witness :
    1 ≤ ([([200] : Frame)] : List Frame).length ∧
    (runSeg initState (([([200] : Frame)] ++ List.replicate 19 ([80] : Frame)).map some)).emitted
      ≠ [] := by
  constructor
  · decide
  · exact (segmenter_run_emits_iff [([200] : Frame)] (List.replicate 19 ([80] : Frame))
      (by decide) (by decide) (by decide)).mpr (Or.inl (by decide))

/-- Counterexample for C6: a queue-idle (timeout) closure does not reset
the silence counter.  After one loud frame and 7 quiet ones (0.512 s
buffered, silence counter 7), a timeout closes the utterance (the log
grows to one entry) but the silence counter stays 7. -/
theorem timeout_closure_keeps_silence_counter_cex :
    (runSeg initState (([([200] : Frame)] ++ List.replicate 7 ([80] : Frame)).map some)).emitted
      = [] ∧
    (runSeg initState ((([([200] : Frame)] ++ List.replicate 7 ([80] : Frame)).map some)
      ++ [none])).emitted.length = 1 ∧
    (runSeg initState ((([([200] : Frame)] ++ List.replicate 7 ([80] : Frame)).map some)
      ++ [none])).silence_frames ≠ 0 := by
  refine ⟨by decide, by decide, by decide⟩

/-- Claim C6 (amended): every closure leaves at most `keep_frames = 4`
frames (`0.256 s ≤ 0.3 s`) in the buffer; a closure fired by an in-loop
rule (silence, max-length, short-utterance — i.e. on a frame event) also
resets the silence counter to zero, while a queue-idle closure empties the
buffer entirely but leaves the silence counter unchanged. -/
theorem closure_resets_and_carryover_bound (st : SegState) (ev : Option Frame)
    (h : st.emitted.length < (segStep st ev).emitted.length) :
    (segStep st ev).audio_buffer.length ≤ keep_frames ∧
    (ev = none → (segStep st ev).audio_buffer = [] ∧
      (segStep st ev).silence_frames = st.silence_frames) ∧
    (∀ f, ev = some f → (segStep st ev).silence_frames = 0) := by
  rcases ev with _ | f
  · simp only [segStep] at h ⊢
    split_ifs at h ⊢ with h1 h2
    · refine ⟨by simp [keep_frames], fun _ => ⟨rfl, rfl⟩, ?_⟩
      intro g hg
      cases hg
    · exact absurd h (lt_irrefl _)
    · exact absurd h (lt_irrefl _)
  · simp only [segStep] at h ⊢
    split_ifs at h ⊢ with h1 h2
    · exact absurd h (lt_irrefl _)
    · refine ⟨closeUtterance_buffer_le _, ?_, fun g hg => rfl⟩
      intro hne
      cases hne
    · rw [vadUpdate_emitted] at h
      exact absurd h (lt_irrefl _)

/-- Witness for C6 (amended): a timeout closure from a speaking state with
8 buffered frames and silence counter 5 keeps the counter at 5 and empties
the buffer. -/
theorem closure_resets_and_carryover_bound_witness :
    (segStep (SegState.mk (List.replicate 8 ([200] : Frame)) 5 true []) none).audio_buffer.length
      ≤ keep_frames ∧
    ((none : Option Frame) = none →
      (segStep (SegState.mk (List.replicate 8 ([200] : Frame)) 5 true []) none).audio_buffer = [] ∧
      (segStep (SegState.mk (List.replicate 8 ([200] : Frame)) 5 true []) none).silence_frames =
        (SegState.mk (List.replicate 8 ([200] : Frame)) 5 true []).silence_frames) ∧
    (∀ f, (none : Option Frame) = some f →
      (segStep (SegState.mk (List.replicate 8 ([200] : Frame)) 5 true []) none).silence_frames
        = 0) :=
  closure_resets_and_carryover_bound (SegState.mk (List.replicate 8 ([200] : Frame)) 5 true [])
    none (by decide)

/-- Claim C7 (code bug): the in-loop closure does retain the trailing 4
frames as carryover, but when the next utterance starts the code executes
`self.audio_buffer = [data]`, discarding them — contradicting the comment in the source
itself, 保留少量上下文 ("keep a little context").  After one loud frame
plus 19 quiet ones, the closure leaves the 4-frame carryover in the buffer
in the idle state, yet the next loud frame produces a buffer holding only
itself. -/
theorem carryover_discarded_on_next_speech_start :
    (runSeg initState (([([200] : Frame)] ++ List.replicate 19 ([80] : Frame)).map some)).audio_buffer
      = [([80] : Frame), [80], [80], [80]] ∧
    (runSeg initState (([([200] : Frame)] ++ List.replicate 19 ([80] : Frame)).map some)).is_speaking
      = false ∧
    (runSeg initState ((([([200] : Frame)] ++ List.replicate 19 ([80] : Frame)).map some)
      ++ [some ([200] : Frame)])).audio_buffer = [([200] : Frame)] := by
  refine ⟨by decide, by decide, by decide⟩

/-- Claim C8: input consisting only of frames whose computed volume is
below `silence_threshold` never starts speech, never emits an utterance
and never invokes transcription: the machine stays idle with an empty
buffer. -/
theorem quiet_input_never_emits (frames : List Frame)
    (hq : ∀ f ∈ frames, volumeOf f < silence_threshold) :
    (runSeg initState (frames.map some)).emitted = [] ∧
    (runSeg initState (frames.map some)).is_speaking = false ∧
    (runSeg initState (frames.map some)).audio_buffer = [] := by
  have hq2 : ∀ f : Frame, some f ∈ frames.map some → volumeOf f ≤ silence_threshold := by
    intro f hf
    rw [List.mem_map] at hf
    obtain ⟨a, ha, hfa⟩ := hf
    injection hfa with h2
    subst h2
    exact le_of_lt (hq a ha)
  have h := idle_run (frames.map some) initState rfl hq2
  exact ⟨h.1, h.2.1, h.2.2⟩

/-- Witness for C8: two quiet frames (volumes 50 and 99) leave the
segmenter idle with nothing emitted. -/
theorem quiet_input_never_emits_witness :
    (runSeg initState (([([50] : Frame), [99]] : List Frame).map some)).emitted = [] ∧
    (runSeg initState (([([50] : Frame), [99]] : List Frame).map some)).is_speaking = false ∧
    (runSeg initState (([([50] : Frame), [99]] : List Frame).map some)).audio_buffer = [] :=
  quiet_input_never_emits [([50] : Frame), [99]] (by decide)

/-- Counterexample for C9: when the transcription call raises, control
jumps to the `except Exception` handler and `os.unlink(temp_path)` never
runs — the temporary file persists, contrary to the claim that it is
deleted in every outcome. -/
theorem temp_file_kept_on_exception_cex :
    (_process_speech TranscribeOutcome.exn).temp_deleted = false ∧
    (_process_speech TranscribeOutcome.exn).recognized = none :=
  ⟨rfl, rfl⟩

/-- Claim C9 (amended): whenever the transcription call returns — with or
without usable text — the temporary file is deleted before the emission
check; only a raised exception skips the deletion. -/
theorem temp_file_deleted_on_return (raw : List Char) (language : Option String) :
    (_process_speech (TranscribeOutcome.ok raw language)).temp_deleted = true := rfl

/-- Claim C10: a recognition result is emitted iff the stripped
transcription text has length strictly greater than 1; empty and
single-character texts are dropped with no recognition payload (hence no
subtitle update and no translation task), and the pipeline continues. -/
theorem recognition_emitted_iff_len_gt_one (raw : List Char) (language : Option String) :
    (_process_speech (TranscribeOutcome.ok raw language)).recognized =
      (if 1 < (trim raw).length then some (trim raw, language.getD ("unknown")) else none) ∧
    ((_process_speech (TranscribeOutcome.ok raw language)).recognized ≠ none ↔
      1 < (trim raw).length) := by
  have hrec : (_process_speech (TranscribeOutcome.ok raw language)).recognized =
      (if trim raw ≠ [] ∧ 1 < (trim raw).length
        then some (trim raw, language.getD ("unknown")) else none) := rfl
  by_cases h : 1 < (trim raw).length
  · have hne : trim raw ≠ [] := by
      intro he
      rw [he] at h
      simp at h
    rw [hrec, if_pos ⟨hne, h⟩, if_pos h]
    simp [h]
  · rw [hrec, if_neg (fun hc => h hc.2), if_neg h]
    simp [h]

end SubtitleCore
